import Mathlib

/-!
Verification of the bidsMReye quality-control numeric transforms and of the
filename/regex helpers of `bidsmreye/utils.py`.

The quality-control module (`compute_robust_outliers`, `compute_displacement`)
is referenced by `tests/utils.py` but its own file is not among the sources;
those two functions and their auxiliaries are therefore modelled from the
specification (sections 3, 4.1, 4.2 and 7).  The helpers `return_regex` and
`return_deepmreye_output_filename` are embedded directly from
`bidsmreye/utils.py`.  Python strings are represented as `List Char`, numeric
series as lists over a linear ordered field, and fallible functions return
`Except String`.
-/

namespace BidsMReye

variable {α : Type} [LinearOrderedField α]

/-- Modelled from the spec: insertion step of the sort underlying the median
(the quality-control module is missing from the sources; its numeric helpers
are modelled from the specification's words "median" and
"median-absolute-deviation"). -/
def insertSorted (a : α) : List α → List α
  | [] => [a]
  | b :: t => if a ≤ b then a :: b :: t else b :: insertSorted a t

/-- Modelled from the spec: sorting a series, used to take medians. -/
def sortList : List α → List α
  | [] => []
  | a :: t => insertSorted a (sortList t)

/-- Modelled from the spec: the median of a numeric series — 0 for an empty
series, the middle element of the sorted series for odd length, and the mean
of the two middle elements for even length. -/
def median (xs : List α) : α :=
  if xs.length = 0 then 0
  else if xs.length % 2 = 1 then (sortList xs).getD (xs.length / 2) 0
  else
    ((sortList xs).getD (xs.length / 2 - 1) 0 + (sortList xs).getD (xs.length / 2) 0) / 2

/-- Modelled from the spec: the median absolute deviation of a series, the
median of the absolute deviations from the series median. -/
def mad (xs : List α) : α :=
  median (xs.map (fun v => |v - median xs|))

/-- Modelled from the spec: the per-element outlier flag of
`compute_robust_outliers`.  `m` is the series median and `s` its scaled
median absolute deviation; the zero-spread guard flags nothing instead of
dividing by zero. -/
def outlierFlag (k m s v : α) : Nat :=
  if s = 0 then 0 else if k < |v - m| / s then 1 else 0

/-- Modelled from the spec (section 4.1): robust outlier detector.  Given a
numeric series, returns the equal-length series of 0/1 flags, where a value
is flagged when it lies beyond the robust threshold
median ± k × (c × median-absolute-deviation); a series with zero spread is
handled by the guard and flags nothing. -/
def compute_robust_outliers (k c : α) (xs : List α) : List Nat :=
  xs.map (outlierFlag k (median xs) (c * mad xs))

/-- Modelled from the spec (section 4.2): distances between consecutive
(x, y) samples; `f` is the square-root primitive and `p` the previous
sample. -/
def disp_core (f : α → α) : α × α → List (α × α) → List α
  | _, [] => []
  | p, q :: t => f ((q.1 - p.1) ^ 2 + (q.2 - p.2) ^ 2) :: disp_core f q t

/-- Modelled from the spec (section 4.2): the displacement series of two
equal-length coordinate series, first element the sentinel 0. -/
def displacement_list (f : α → α) (x y : List α) : List α :=
  match x.zip y with
  | [] => []
  | p :: t => 0 :: disp_core f p t

/-- Modelled from the spec (sections 4.2 and 7): `compute_displacement`
fails exactly when the two coordinate series have different lengths, and
otherwise returns the displacement series. -/
def compute_displacement (f : α → α) (x y : List α) : Except String (List α) :=
  if x.length = y.length then Except.ok (displacement_list f x y)
  else Except.error "lengths differ"

/-- The derived confound columns, in the order `create_confounds_tsv`
(tests/utils.py) adds them. -/
structure Confounds (β : Type) where
  x_outliers : List Nat
  y_outliers : List Nat
  displacement : List β
  displacement_outliers : List Nat

/-- Embedding of the derived-column computation of `create_confounds_tsv`
(tests/utils.py): outlier flags for x and for y, the displacement series of
(x, y), and the outlier flags of that displacement series. -/
def create_confounds_tsv (f : α → α) (k c : α) (x y : List α) :
    Except String (Confounds α) :=
  match compute_displacement f x y with
  | Except.error e => Except.error e
  | Except.ok d =>
      Except.ok
        ⟨compute_robust_outliers k c x, compute_robust_outliers k c y, d,
          compute_robust_outliers k c d⟩

/-- First step of `return_regex` (bidsmreye/utils.py) on a non-empty string
with first character `c` and remainder `t`: prepend `^` unless the first
character already is `^` (Python's `if value[0] != "^"`). -/
def addCaret (c : Char) (t : List Char) : List Char :=
  if c = '^' then c :: t else '^' :: c :: t

/-- Second step of `return_regex` (bidsmreye/utils.py): append `$` unless
the string already ends with it (Python's `if not value.endswith("$")`). -/
def addDollar (s : List Char) : List Char :=
  if s.getLast? = some '$' then s else s ++ ['$']

/-- Embedding of `return_regex` (bidsmreye/utils.py) on a string, written
over `List Char`; the empty string evaluates `value[0]` and raises
IndexError. -/
def return_regex : List Char → Except String (List Char)
  | [] => Except.error "IndexError"
  | c :: t => Except.ok (addDollar (addCaret c t))

/-- The anchored regex of a non-empty string: the value `return_regex`
returns on it. -/
def anchor : List Char → List Char
  | [] => []
  | c :: t => addDollar (addCaret c t)

/-- Embedding of the accumulation loop of `return_regex` on a list
(bidsmreye/utils.py): each element's regex followed by `|` is appended to
the accumulator; an error from an element propagates. -/
def regexLoop : List (List Char) → List Char → Except String (List Char)
  | [], acc => Except.ok acc
  | s :: rest, acc =>
      match return_regex s with
      | Except.error e => Except.error e
      | Except.ok r => regexLoop rest (acc ++ r ++ ['|'])

/-- Embedding of `return_regex` (bidsmreye/utils.py) on a list of strings:
run the loop from the empty accumulator, then drop the final character
(Python's `new_value[:-1]`). -/
def return_regex_list (l : List (List Char)) : Except String (List Char) :=
  match regexLoop l [] with
  | Except.error e => Except.error e
  | Except.ok nv => Except.ok nv.dropLast

/-- The "|"-join of a list of strings. -/
def joinBar : List (List Char) → List Char
  | [] => []
  | [s] => s
  | s :: rest => s ++ '|' :: joinBar rest

/-- The pattern ".nii" as a character list. -/
def niiChars : List Char := ['.', 'n', 'i', 'i']

/-- Embedding of `re.sub(r"\.nii.*", repl, s)` as used by
`return_deepmreye_output_filename` (bidsmreye/utils.py), with an explicit
fuel argument so the recursion is structural: scanning left to right, every
match of ".nii" followed by the rest of its line is replaced by `repl`
(Python's `.` does not match a newline), and scanning resumes after the
match.  Each step shortens the string, so `s.length` fuel is enough. -/
def subNiiFuel (repl : List Char) : Nat → List Char → List Char
  | 0, s => s
  | _ + 1, [] => []
  | n + 1, c :: t =>
      if niiChars.isPrefixOf (c :: t) then
        repl ++ subNiiFuel repl n ((t.drop 3).dropWhile (fun ch => ¬ ch = '\n'))
      else c :: subNiiFuel repl n t

/-- `re.sub(r"\.nii.*", repl, s)`: run the scan with enough fuel. -/
def subNii (repl s : List Char) : List Char :=
  subNiiFuel repl s.length s

/-- The transformation the claim describes: everything from the first
occurrence of ".nii" to the end of the string replaced by `repl`, the
string unchanged when ".nii" does not occur. -/
def replaceFromNii (repl : List Char) : List Char → List Char
  | [] => []
  | c :: t =>
      if niiChars.isPrefixOf (c :: t) then repl
      else c :: replaceFromNii repl t

/-- Embedding of `return_deepmreye_output_filename` (bidsmreye/utils.py):
identity for `filetype = None` or an unrecognised filetype; for "mask",
prepend "mask_" after substituting ".p" for the `\.nii.*` matches; for
"report", prepend "report_" after substituting ".html". -/
def return_deepmreye_output_filename (filename : List Char)
    (filetype : Option (List Char)) : List Char :=
  match filetype with
  | none => filename
  | some ft =>
      if ft = "mask".toList then "mask_".toList ++ subNii ".p".toList filename
      else if ft = "report".toList then
        "report_".toList ++ subNii ".html".toList filename
      else filename

/-! ### Lemmas about the sort, the median and the MAD -/

theorem insertSorted_perm (a : α) (l : List α) : List.Perm (insertSorted a l) (a :: l) := by
  induction l with
  | nil => exact List.Perm.refl _
  | cons b t ih =>
      rw [insertSorted]
      split
      · exact List.Perm.refl _
      · exact (List.Perm.cons b ih).trans (List.Perm.swap a b t)

theorem sortList_perm (l : List α) : List.Perm (sortList l) l := by
  induction l with
  | nil => exact List.Perm.refl _
  | cons a t ih =>
      rw [sortList]
      exact (insertSorted_perm a (sortList t)).trans (List.Perm.cons a ih)

theorem sortList_replicate (n : Nat) (x : α) :
    sortList (List.replicate n x) = List.replicate n x := by
  have h := sortList_perm (List.replicate n x)
  rw [List.eq_replicate_iff]
  exact ⟨by rw [h.length_eq, List.length_replicate],
    fun b hb => List.eq_of_mem_replicate (h.mem_iff.1 hb)⟩

theorem median_replicate {n : Nat} (hn : n ≠ 0) (x : α) :
    median (List.replicate n x) = x := by
  unfold median
  rw [sortList_replicate, List.length_replicate, if_neg hn]
  have hlt : n / 2 < n := Nat.div_lt_self (Nat.pos_of_ne_zero hn) one_lt_two
  have hlt' : n / 2 - 1 < n := lt_of_le_of_lt (Nat.sub_le _ _) hlt
  split
  · rw [List.getD_eq_getElem _ _ (by simpa using hlt), List.getElem_replicate]
  · rw [List.getD_eq_getElem _ _ (by simpa using hlt'),
      List.getD_eq_getElem _ _ (by simpa using hlt), List.getElem_replicate,
      List.getElem_replicate, add_self_div_two]

theorem mad_replicate (n : Nat) (x : α) : mad (List.replicate n x) = 0 := by
  rcases Nat.eq_zero_or_pos n with hn | hn
  · subst hn; rfl
  · unfold mad
    rw [median_replicate hn.ne' x, List.map_replicate, sub_self, abs_zero,
      median_replicate hn.ne' 0]

theorem getD_zero_nonneg {l : List α} (h : ∀ a ∈ l, 0 ≤ a) (i : Nat) :
    0 ≤ l.getD i 0 := by
  rcases lt_or_le i l.length with hi | hi
  · rw [List.getD_eq_getElem _ _ hi]
    exact h _ (List.getElem_mem hi)
  · rw [List.getD_eq_default _ _ hi]

theorem median_nonneg {l : List α} (h : ∀ a ∈ l, 0 ≤ a) : 0 ≤ median l := by
  have hs : ∀ a ∈ sortList l, 0 ≤ a := fun a ha =>
    h a ((sortList_perm l).mem_iff.1 ha)
  unfold median
  split
  · exact le_refl 0
  split
  · exact getD_zero_nonneg hs _
  · exact div_nonneg (add_nonneg (getD_zero_nonneg hs _) (getD_zero_nonneg hs _))
      (by norm_num)

theorem mad_nonneg (xs : List α) : 0 ≤ mad xs := by
  unfold mad
  refine median_nonneg fun a ha => ?_
  rcases List.mem_map.1 ha with ⟨v, _, rfl⟩
  exact abs_nonneg _

/-! ### Lemmas about the robust outlier detector -/

theorem outlierFlag_zero_or_one (k m s v : α) :
    outlierFlag k m s v = 0 ∨ outlierFlag k m s v = 1 := by
  unfold outlierFlag
  split
  · exact Or.inl rfl
  split
  · exact Or.inr rfl
  · exact Or.inl rfl

theorem outlierFlag_eq_one_iff {k m s v : α} (hs : 0 < s) :
    outlierFlag k m s v = 1 ↔ k * s < |v - m| := by
  unfold outlierFlag
  rw [if_neg hs.ne', ← lt_div_iff₀ hs]
  split
  · simp_all
  · simp_all

theorem outlierFlag_zero_spread (k m v : α) : outlierFlag k m 0 v = 0 := by
  unfold outlierFlag
  rw [if_pos rfl]

theorem compute_robust_outliers_length (k c : α) (xs : List α) :
    (compute_robust_outliers k c xs).length = xs.length := by
  simp [compute_robust_outliers]

theorem compute_robust_outliers_getD (k c : α) {xs : List α} {i : Nat}
    (hi : i < xs.length) (dn : Nat) (da : α) :
    (compute_robust_outliers k c xs).getD i dn =
      outlierFlag k (median xs) (c * mad xs) (xs.getD i da) := by
  have hi' : i < (compute_robust_outliers k c xs).length := by
    rw [compute_robust_outliers_length]; exact hi
  rw [List.getD_eq_getElem _ _ hi', List.getD_eq_getElem _ _ hi]
  simp [compute_robust_outliers]

theorem compute_robust_outliers_replicate (k c : α) (n : Nat) (x : α) :
    c * mad (List.replicate n x) = 0 ∧
      compute_robust_outliers k c (List.replicate n x) = List.replicate n 0 := by
  have hs : c * mad (List.replicate n x) = 0 := by rw [mad_replicate, mul_zero]
  refine ⟨hs, ?_⟩
  unfold compute_robust_outliers
  rw [hs, List.map_replicate, outlierFlag_zero_spread]

/-! ### Lemmas about the displacement computer -/

theorem disp_core_length (f : α → α) :
    ∀ (t : List (α × α)) (p : α × α), (disp_core f p t).length = t.length
  | [], _ => rfl
  | q :: t, p => by
      rw [disp_core, List.length_cons, List.length_cons, disp_core_length f t q]

theorem disp_core_getD (f : α → α) :
    ∀ (t : List (α × α)) (p : α × α) (i : Nat), i < t.length → ∀ d₁ d₂ : α × α,
      (disp_core f p t).getD i 0 =
        f (((t.getD i d₁).1 - ((p :: t).getD i d₂).1) ^ 2 +
            ((t.getD i d₁).2 - ((p :: t).getD i d₂).2) ^ 2)
  | [], _, i, hi, _, _ => absurd hi (by simp)
  | q :: t, p, 0, _, d₁, d₂ => by simp [disp_core]
  | q :: t, p, i + 1, hi, d₁, d₂ => by
      simp only [disp_core, List.getD_cons_succ]
      exact disp_core_getD f t q i (by simpa using hi) d₁ d₂

theorem zip_getD_eq {x y : List α} {i : Nat} (hi : i < (x.zip y).length)
    (d : α × α) : (x.zip y).getD i d = (x.getD i 0, y.getD i 0) := by
  have hix : i < x.length := by
    rw [List.length_zip] at hi; exact lt_of_lt_of_le hi (Nat.min_le_left _ _)
  have hiy : i < y.length := by
    rw [List.length_zip] at hi; exact lt_of_lt_of_le hi (Nat.min_le_right _ _)
  rw [List.getD_eq_getElem _ _ hi, List.getElem_zip,
    List.getD_eq_getElem _ _ hix, List.getD_eq_getElem _ _ hiy]

theorem displacement_list_length (f : α → α) {x y : List α}
    (h : x.length = y.length) : (displacement_list f x y).length = x.length := by
  have hz : (x.zip y).length = x.length := by rw [List.length_zip, h, Nat.min_self]
  rcases hzip : x.zip y with _ | ⟨p, t⟩
  · rw [hzip] at hz
    simp only [displacement_list, hzip]
    simpa using hz
  · rw [hzip] at hz
    simp only [displacement_list, hzip, List.length_cons, disp_core_length]
    simpa using hz

theorem displacement_list_getD_zero (f : α → α) (x y : List α) :
    (displacement_list f x y).getD 0 0 = 0 := by
  rcases hzip : x.zip y with _ | ⟨p, t⟩ <;> simp [displacement_list, hzip]

theorem displacement_list_getD_succ (f : α → α) {x y : List α}
    (h : x.length = y.length) {i : Nat} (hi : i + 1 < x.length) :
    (displacement_list f x y).getD (i + 1) 0 =
      f ((x.getD (i + 1) 0 - x.getD i 0) ^ 2 +
          (y.getD (i + 1) 0 - y.getD i 0) ^ 2) := by
  have hz : (x.zip y).length = x.length := by rw [List.length_zip, h, Nat.min_self]
  rcases hzip : x.zip y with _ | ⟨p, t⟩
  · rw [hzip] at hz
    simp only [List.length_nil] at hz
    omega
  · rw [hzip] at hz
    simp only [List.length_cons] at hz
    have hit : i < t.length := by omega
    simp only [displacement_list, hzip, List.getD_cons_succ]
    rw [disp_core_getD f t p i hit p p]
    have h1 : t.getD i p = (x.zip y).getD (i + 1) p := by
      rw [hzip, List.getD_cons_succ]
    have h2 : (p :: t).getD i p = (x.zip y).getD i p := by rw [hzip]
    have hb1 : i + 1 < (x.zip y).length := by rw [hzip]; simpa using hit
    have hb0 : i < (x.zip y).length := by rw [hzip]; simp; omega
    rw [h1, h2, zip_getD_eq hb1, zip_getD_eq hb0]

theorem compute_displacement_ok (f : α → α) {x y : List α}
    (h : x.length = y.length) :
    compute_displacement f x y = Except.ok (displacement_list f x y) := by
  unfold compute_displacement
  rw [if_pos h]

theorem compute_displacement_error_iff (f : α → α) (x y : List α) :
    (∃ e, compute_displacement f x y = Except.error e) ↔ x.length ≠ y.length := by
  unfold compute_displacement
  by_cases h : x.length = y.length <;> simp [h]

/-! ### Lemmas about return_regex -/

theorem return_regex_ok {s : List Char} (h : s ≠ []) :
    return_regex s = Except.ok (anchor s) := by
  cases s with
  | nil => exact absurd rfl h
  | cons c t => rfl

theorem addCaret_eq_caret_cons (c : Char) (t : List Char) :
    ∃ r, addCaret c t = '^' :: r := by
  unfold addCaret
  split
  · next hc => exact ⟨t, by rw [hc]⟩
  · exact ⟨c :: t, rfl⟩

theorem addDollar_getLast? (s : List Char) :
    (addDollar s).getLast? = some '$' := by
  unfold addDollar
  split
  · assumption
  · exact List.getLast?_concat s

theorem addDollar_caret_cons (r : List Char) :
    ∃ r', addDollar ('^' :: r) = '^' :: r' := by
  unfold addDollar
  split
  · exact ⟨r, rfl⟩
  · exact ⟨r ++ ['$'], rfl⟩

theorem anchor_cons_struct (c : Char) (t : List Char) :
    ∃ r, anchor (c :: t) = '^' :: r := by
  rw [anchor]
  rcases addCaret_eq_caret_cons c t with ⟨r, hr⟩
  rw [hr]
  exact addDollar_caret_cons r

theorem anchor_getLast? (c : Char) (t : List Char) :
    (anchor (c :: t)).getLast? = some '$' := by
  rw [anchor]
  exact addDollar_getLast? _

theorem return_regex_anchor_idem (c : Char) (t : List Char) :
    return_regex (anchor (c :: t)) = Except.ok (anchor (c :: t)) := by
  rcases anchor_cons_struct c t with ⟨r, hr⟩
  have hlast : ('^' :: r).getLast? = some '$' := by
    rw [← hr]; exact anchor_getLast? c t
  rw [hr, return_regex]
  have hc : addCaret '^' r = '^' :: r := by rw [addCaret, if_pos rfl]
  rw [hc, addDollar, if_pos hlast]

theorem regexLoop_ok :
    ∀ (l : List (List Char)) (acc : List Char), (∀ s ∈ l, s ≠ []) →
      regexLoop l acc =
        Except.ok (acc ++ (l.map (fun s => anchor s ++ ['|'])).flatten)
  | [], acc, _ => by simp [regexLoop]
  | s :: rest, acc, h => by
      have hs : s ≠ [] := h s (List.mem_cons_self s rest)
      simp only [regexLoop, return_regex_ok hs]
      rw [regexLoop_ok rest (acc ++ anchor s ++ ['|'])
        (fun t ht => h t (List.mem_cons_of_mem s ht))]
      simp [List.append_assoc]

theorem dropLast_append_ne {β : Type} :
    ∀ (A B : List β), B ≠ [] → (A ++ B).dropLast = A ++ B.dropLast
  | [], _, _ => by simp
  | a :: A, B, h => by
      rcases hAB : A ++ B with _ | ⟨x, xs⟩
      · exact absurd (List.append_eq_nil.1 hAB).2 h
      · rw [List.cons_append, hAB, List.dropLast_cons₂, ← hAB,
          dropLast_append_ne A B h, List.cons_append]

theorem flatten_bar_dropLast :
    ∀ rs : List (List Char), rs ≠ [] →
      ((rs.map (fun r => r ++ ['|'])).flatten).dropLast = joinBar rs
  | [], h => absurd rfl h
  | [r], _ => by simp [joinBar, List.dropLast_concat]
  | r :: r₂ :: rest, _ => by
      have ih := flatten_bar_dropLast (r₂ :: rest) (by simp)
      simp only [List.map_cons, List.flatten_cons] at ih ⊢
      rw [dropLast_append_ne _ _ (by simp), ih]
      simp [joinBar, List.append_assoc]

/-! ### Lemmas about the filename substitution -/

theorem subNiiFuel_nil (repl : List Char) : ∀ n, subNiiFuel repl n [] = []
  | 0 => rfl
  | _ + 1 => rfl

theorem subNiiFuel_eq_replaceFromNii (repl : List Char) :
    ∀ (n : Nat) (s : List Char), s.length ≤ n → '\n' ∉ s →
      subNiiFuel repl n s = replaceFromNii repl s
  | 0, s, hn, _ => by
      have hs : s = [] := List.length_eq_zero.1 (Nat.le_zero.1 hn)
      subst hs; rfl
  | _ + 1, [], _, _ => rfl
  | n + 1, c :: t, hn, h => by
      rw [subNiiFuel, replaceFromNii]
      split
      · have hdw : (t.drop 3).dropWhile (fun ch => ¬ ch = '\n') = [] := by
          rw [List.dropWhile_eq_nil_iff]
          intro x hx
          have hxt : x ∈ t := List.drop_subset 3 t hx
          have hxn : x ≠ '\n' := fun he => h (he ▸ List.mem_cons_of_mem c hxt)
          simpa using hxn
        rw [hdw, subNiiFuel_nil, List.append_nil]
      · have ht : t.length ≤ n := by
          rw [List.length_cons] at hn; omega
        rw [subNiiFuel_eq_replaceFromNii repl n t ht
          (fun hx => h (List.mem_cons_of_mem c hx))]

theorem subNii_eq_replaceFromNii (repl : List Char) {s : List Char}
    (h : '\n' ∉ s) : subNii repl s = replaceFromNii repl s :=
  subNiiFuel_eq_replaceFromNii repl s.length s (le_refl _) h

theorem return_deepmreye_mask (fn : List Char) :
    return_deepmreye_output_filename fn (some ("mask".toList)) =
      "mask_".toList ++ subNii ".p".toList fn := by
  show (if "mask".toList = "mask".toList then
        "mask_".toList ++ subNii ".p".toList fn
      else if "mask".toList = "report".toList then
        "report_".toList ++ subNii ".html".toList fn
      else fn) = "mask_".toList ++ subNii ".p".toList fn
  rw [if_pos rfl]

theorem return_deepmreye_report (fn : List Char) :
    return_deepmreye_output_filename fn (some ("report".toList)) =
      "report_".toList ++ subNii ".html".toList fn := by
  show (if "report".toList = "mask".toList then
        "mask_".toList ++ subNii ".p".toList fn
      else if "report".toList = "report".toList then
        "report_".toList ++ subNii ".html".toList fn
      else fn) = "report_".toList ++ subNii ".html".toList fn
  rw [if_neg (by decide), if_pos rfl]

/-! ### Claim theorems -/

/-- C1: for every pair of equal-length coordinate series x and y,
`compute_displacement` returns a series d with
d[i] = sqrt((x[i]-x[i-1])^2 + (y[i]-y[i-1])^2) for every i ≥ 1 and
d[0] the sentinel 0.0. -/
theorem compute_displacement_consecutive_euclidean (x y : List ℝ)
    (h : x.length = y.length) :
    ∃ d, compute_displacement Real.sqrt x y = Except.ok d ∧
      d.length = x.length ∧ d.getD 0 0 = 0 ∧
      ∀ i : Nat, i + 1 < d.length →
        d.getD (i + 1) 0 =
          Real.sqrt ((x.getD (i + 1) 0 - x.getD i 0) ^ 2 +
            (y.getD (i + 1) 0 - y.getD i 0) ^ 2) := by
  refine ⟨displacement_list Real.sqrt x y, compute_displacement_ok _ h,
    displacement_list_length _ h, displacement_list_getD_zero _ x y, ?_⟩
  intro i hi
  exact displacement_list_getD_succ _ h
    (by rwa [displacement_list_length _ h] at hi)

/-- C1 witness: the hypothesis and conclusion hold at x=[0,3], y=[0,4]. -/
theorem compute_displacement_consecutive_euclidean_witness :
    ([(0 : ℝ), 3]).length = ([(0 : ℝ), 4]).length ∧
      ∃ d, compute_displacement Real.sqrt [(0 : ℝ), 3] [(0 : ℝ), 4] =
          Except.ok d ∧
        d.length = ([(0 : ℝ), 3]).length ∧ d.getD 0 0 = 0 ∧
        ∀ i : Nat, i + 1 < d.length →
          d.getD (i + 1) 0 =
            Real.sqrt ((([(0 : ℝ), 3]).getD (i + 1) 0 -
                  ([(0 : ℝ), 3]).getD i 0) ^ 2 +
              (([(0 : ℝ), 4]).getD (i + 1) 0 - ([(0 : ℝ), 4]).getD i 0) ^ 2) :=
  ⟨rfl, compute_displacement_consecutive_euclidean [0, 3] [0, 4] rfl⟩

/-- C2: `compute_displacement` errors exactly when the series lengths
differ; every equal-length input yields a value; `compute_robust_outliers`
is total and maps the empty series to the empty series. -/
theorem displacement_error_iff_length_mismatch :
    (∀ (f : α → α) (x y : List α),
        (∃ e, compute_displacement f x y = Except.error e) ↔
          x.length ≠ y.length) ∧
      (∀ (f : α → α) (x y : List α), x.length = y.length →
          ∃ d, compute_displacement f x y = Except.ok d) ∧
      ∀ k c : α, compute_robust_outliers k c ([] : List α) = [] :=
  ⟨compute_displacement_error_iff,
    fun f _ _ h => ⟨_, compute_displacement_ok f h⟩, fun _ _ => rfl⟩

/-- C2 witness: a length mismatch errors, an equal-length pair succeeds, and
the empty series maps to the empty series, at concrete rational inputs. -/
theorem displacement_error_iff_length_mismatch_witness :
    (∃ e, compute_displacement (fun v : ℚ => v) [0] [] = Except.error e) ∧
      (∃ d, compute_displacement (fun v : ℚ => v) [0] [1] = Except.ok d) ∧
      compute_robust_outliers (3 : ℚ) 1 [] = [] :=
  ⟨(displacement_error_iff_length_mismatch.1 _ [0] []).2 (by simp),
    displacement_error_iff_length_mismatch.2.1 _ [0] [1] rfl,
    displacement_error_iff_length_mismatch.2.2 3 1⟩

/-- C3: on every constant series the scaled median-absolute-deviation is
zero, so the guard (not the division branch) is taken and no element is
flagged. -/
theorem robust_outliers_constant_series (k c : α) (n : Nat) (x : α) :
    c * mad (List.replicate n x) = 0 ∧
      compute_robust_outliers k c (List.replicate n x) = List.replicate n 0 :=
  compute_robust_outliers_replicate k c n x

/-- C4 counterexample: for the series [0,0,0,5] with k=3, c=1 the scaled
median-absolute-deviation is zero, the value 5 at index 3 lies beyond
median ± k × scaled MAD, yet its flag is 0 — the stated biconditional
fails. -/
theorem robust_outliers_threshold_iff_cex :
    compute_robust_outliers (3 : ℚ) 1 [0, 0, 0, 5] = [0, 0, 0, 0] ∧
      (compute_robust_outliers (3 : ℚ) 1 [0, 0, 0, 5]).getD 3 0 = 0 ∧
      3 * ((1 : ℚ) * mad [0, 0, 0, 5]) <
        |([0, 0, 0, (5 : ℚ)]).getD 3 0 - median [0, 0, 0, 5]| := by
  refine ⟨?_, ?_, ?_⟩
  · norm_num [compute_robust_outliers, outlierFlag, mad, median, sortList,
      insertSorted]
  · norm_num [compute_robust_outliers, outlierFlag, mad, median, sortList,
      insertSorted]
  · norm_num [mad, median, sortList, insertSorted]

/-- C4 (amended): the flag series has the same length as the input and
contains only 0/1; when the scaled median-absolute-deviation is nonzero
(for a positive scaling constant c) element i is 1 exactly when value i
lies beyond median ± k × scaled MAD; when the scaled MAD is zero every
flag is 0. -/
theorem robust_outliers_flag_characterization (k c : α) (xs : List α)
    (hc : 0 < c) :
    (compute_robust_outliers k c xs).length = xs.length ∧
      (∀ i : Nat, (compute_robust_outliers k c xs).getD i 0 = 0 ∨
          (compute_robust_outliers k c xs).getD i 0 = 1) ∧
      (c * mad xs = 0 →
          ∀ i : Nat, (compute_robust_outliers k c xs).getD i 0 = 0) ∧
      (c * mad xs ≠ 0 → ∀ i : Nat, i < xs.length →
          ((compute_robust_outliers k c xs).getD i 0 = 1 ↔
            k * (c * mad xs) < |xs.getD i 0 - median xs|)) := by
  refine ⟨compute_robust_outliers_length k c xs, ?_, ?_, ?_⟩
  · intro i
    rcases lt_or_le i xs.length with hi | hi
    · rw [compute_robust_outliers_getD k c hi 0 0]
      exact outlierFlag_zero_or_one _ _ _ _
    · left
      exact List.getD_eq_default _ _
        (by rw [compute_robust_outliers_length]; exact hi)
  · intro hs i
    rcases lt_or_le i xs.length with hi | hi
    · rw [compute_robust_outliers_getD k c hi 0 0, hs]
      exact outlierFlag_zero_spread _ _ _
    · exact List.getD_eq_default _ _
        (by rw [compute_robust_outliers_length]; exact hi)
  · intro hs i hi
    have hspos : 0 < c * mad xs :=
      lt_of_le_of_ne (mul_nonneg hc.le (mad_nonneg xs)) (Ne.symm hs)
    rw [compute_robust_outliers_getD k c hi 0 0]
    exact outlierFlag_eq_one_iff hspos

/-- C4 witness: the amended characterization applies at k=3, c=1,
series [0,0,10]. -/
theorem robust_outliers_flag_characterization_witness :
    (compute_robust_outliers (3 : ℚ) 1 [0, 0, 10]).length =
      ([(0 : ℚ), 0, 10]).length :=
  (robust_outliers_flag_characterization 3 1 [0, 0, 10] (by norm_num)).1

/-- C5: each derived confound series (x outliers, y outliers, displacement,
displacement outliers) has the same length as its source series and is
aligned with it index for index. -/
theorem confounds_derived_series_alignment (f : α → α) (k c : α)
    (x y : List α) (h : x.length = y.length) :
    ∃ cf : Confounds α, create_confounds_tsv f k c x y = Except.ok cf ∧
      cf.x_outliers.length = x.length ∧
      cf.y_outliers.length = y.length ∧
      cf.displacement.length = x.length ∧
      cf.displacement_outliers.length = cf.displacement.length ∧
      (∀ i : Nat, i < x.length → cf.x_outliers.getD i 0 =
          outlierFlag k (median x) (c * mad x) (x.getD i 0)) ∧
      (∀ i : Nat, i < y.length → cf.y_outliers.getD i 0 =
          outlierFlag k (median y) (c * mad y) (y.getD i 0)) ∧
      ∀ i : Nat, i < cf.displacement.length →
        cf.displacement_outliers.getD i 0 =
          outlierFlag k (median cf.displacement) (c * mad cf.displacement)
            (cf.displacement.getD i 0) := by
  refine ⟨⟨compute_robust_outliers k c x, compute_robust_outliers k c y,
      displacement_list f x y,
      compute_robust_outliers k c (displacement_list f x y)⟩, ?_,
    compute_robust_outliers_length k c x, compute_robust_outliers_length k c y,
    displacement_list_length f h, compute_robust_outliers_length k c _,
    fun i hi => compute_robust_outliers_getD k c hi 0 0,
    fun i hi => compute_robust_outliers_getD k c hi 0 0,
    fun i hi => compute_robust_outliers_getD k c hi 0 0⟩
  simp only [create_confounds_tsv, compute_displacement_ok f h]

/-- C5 witness: the alignment theorem applies at concrete rational series
of equal length. -/
theorem confounds_derived_series_alignment_witness :
    ∃ cf : Confounds ℚ,
      create_confounds_tsv (fun v => v) 3 1 [0, 1] [0, 2] = Except.ok cf := by
  obtain ⟨cf, h1, _⟩ :=
    confounds_derived_series_alignment (fun v : ℚ => v) 3 1 [0, 1] [0, 2] rfl
  exact ⟨cf, h1⟩

/-- C7: for x=[0,3], y=[0,4] the displacement series is [0, 5]: its element
at index 1 is exactly 5 (the 3-4-5 triangle). -/
theorem displacement_three_four_five :
    compute_displacement Real.sqrt [(0 : ℝ), 3] [(0 : ℝ), 4] =
      Except.ok [0, 5] := by
  rw [compute_displacement_ok Real.sqrt
    (show ([(0 : ℝ), 3]).length = ([(0 : ℝ), 4]).length from rfl)]
  have hd : displacement_list Real.sqrt [(0 : ℝ), 3] [(0 : ℝ), 4] =
      [0, Real.sqrt ((3 - 0) ^ 2 + (4 - 0) ^ 2)] := by
    simp [displacement_list, disp_core]
  rw [hd]
  have h25 : Real.sqrt ((3 - 0) ^ 2 + (4 - 0) ^ 2) = 5 := by
    rw [show ((3 : ℝ) - 0) ^ 2 + (4 - 0) ^ 2 = 5 ^ 2 by norm_num]
    exact Real.sqrt_sq (by norm_num)
  rw [h25]

/-- C8: both transforms are deterministic, pure functions of their
arguments: two invocations on equal inputs return equal outputs. -/
theorem qc_functions_deterministic (f : α → α) (k c : α)
    (x y x₂ y₂ : List α) (hx : x = x₂) (hy : y = y₂) :
    compute_robust_outliers k c x = compute_robust_outliers k c x₂ ∧
      compute_displacement f x y = compute_displacement f x₂ y₂ := by
  subst hx; subst hy; exact ⟨rfl, rfl⟩

/-- C8 witness: determinism at concrete rational inputs. -/
theorem qc_functions_deterministic_witness :
    compute_robust_outliers (3 : ℚ) 1 [0, 1] =
        compute_robust_outliers (3 : ℚ) 1 [0, 1] ∧
      compute_displacement (fun v : ℚ => v) [0, 1] [0, 2] =
        compute_displacement (fun v => v) [0, 1] [0, 2] :=
  qc_functions_deterministic (fun v : ℚ => v) 3 1 [0, 1] [0, 2] [0, 1] [0, 2]
    rfl rfl

/-- C9: `return_regex` raises IndexError on the empty string; on every
non-empty string it returns a string beginning with `^` and ending with `$`
and is idempotent; on every non-empty list of non-empty strings it returns
the "|"-join of the anchored regexes of the elements. -/
theorem return_regex_spec :
    return_regex [] = Except.error "IndexError" ∧
      (∀ s : List Char, s ≠ [] →
          ∃ r, return_regex s = Except.ok r ∧ r.head? = some '^' ∧
            r.getLast? = some '$' ∧ return_regex r = Except.ok r) ∧
      ∀ l : List (List Char), l ≠ [] → (∀ s ∈ l, s ≠ []) →
        return_regex_list l = Except.ok (joinBar (l.map anchor)) := by
  refine ⟨rfl, ?_, ?_⟩
  · intro s hs
    cases s with
    | nil => exact absurd rfl hs
    | cons c t =>
        refine ⟨anchor (c :: t), return_regex_ok hs, ?_, anchor_getLast? c t,
          return_regex_anchor_idem c t⟩
        rcases anchor_cons_struct c t with ⟨r, hr⟩
        rw [hr]; rfl
  · intro l hl hall
    unfold return_regex_list
    simp only [regexLoop_ok l [] hall, List.nil_append]
    have hmap : (l.map fun s => anchor s ++ ['|']) =
        (l.map anchor).map (fun r => r ++ ['|']) := by
      rw [List.map_map]; rfl
    rw [hmap, flatten_bar_dropLast (l.map anchor) (by simpa using hl)]

/-- C9 witness: the anchored form and its properties at the one-character
string "a". -/
theorem return_regex_spec_witness :
    ∃ r, return_regex ['a'] = Except.ok r ∧ r.head? = some '^' ∧
      r.getLast? = some '$' ∧ return_regex r = Except.ok r :=
  return_regex_spec.2.1 ['a'] (by simp)

/-- C10 counterexample: on the filename "a.nii\nb.nii" (which contains a
newline) with filetype "mask" the code replaces each ".nii" together with
the rest of its line, giving "mask_a.p\nb.p" — not "mask_" followed by the
filename with the first ".nii" and everything after it replaced by ".p". -/
theorem deepmreye_filename_newline_cex :
    return_deepmreye_output_filename ("a.nii\nb.nii".toList)
        (some ("mask".toList)) = "mask_a.p\nb.p".toList ∧
      "mask_".toList ++ replaceFromNii ".p".toList ("a.nii\nb.nii".toList) =
        "mask_a.p".toList ∧
      return_deepmreye_output_filename ("a.nii\nb.nii".toList)
          (some ("mask".toList)) ≠
        "mask_".toList ++ replaceFromNii ".p".toList ("a.nii\nb.nii".toList) := by
  refine ⟨?_, ?_, ?_⟩ <;> decide

/-- C10 (amended): identity for filetype None and for unrecognised
filetypes; for filenames without a newline, filetype "mask" prepends
"mask_" after replacing everything from the first ".nii" by ".p", and
"report" prepends "report_" after replacing by ".html" (the filename is
unchanged when ".nii" does not occur). -/
theorem deepmreye_filename_characterization :
    (∀ fn : List Char, return_deepmreye_output_filename fn none = fn) ∧
      (∀ fn ft : List Char, ft ≠ "mask".toList → ft ≠ "report".toList →
          return_deepmreye_output_filename fn (some ft) = fn) ∧
      ∀ fn : List Char, '\n' ∉ fn →
        return_deepmreye_output_filename fn (some ("mask".toList)) =
            "mask_".toList ++ replaceFromNii ".p".toList fn ∧
          return_deepmreye_output_filename fn (some ("report".toList)) =
            "report_".toList ++ replaceFromNii ".html".toList fn := by
  refine ⟨fun fn => rfl, ?_, ?_⟩
  · intro fn ft h1 h2
    simp only [return_deepmreye_output_filename]
    rw [if_neg h1, if_neg h2]
  · intro fn hfn
    constructor
    · rw [return_deepmreye_mask, subNii_eq_replaceFromNii _ hfn]
    · rw [return_deepmreye_report, subNii_eq_replaceFromNii _ hfn]

/-- C10 witness: the mask case at the newline-free filename
"sub-01_bold.nii.gz". -/
theorem deepmreye_filename_characterization_witness :
    return_deepmreye_output_filename ("sub-01_bold.nii.gz".toList)
        (some ("mask".toList)) =
      "mask_".toList ++ replaceFromNii ".p".toList ("sub-01_bold.nii.gz".toList) :=
  (deepmreye_filename_characterization.2.2 ("sub-01_bold.nii.gz".toList)
    (by decide)).1

end BidsMReye
